import Mathlib

/-!
# BleWifiBridge core: formal model and verification

This development embeds the buffering / scheduling / retry-delivery core of
the BleWifiBridge firmware in Lean and proves the documented properties of
that core.

* `StrQueue` models `StrQueue.h` / `StrQueue.cpp`: a bounded FIFO of
  null-terminated byte strings with wrapping read/write cursors.
  Bytes are modelled as `Nat` (the value `0` is the C `'\0'` terminator).
* `ValueToRead` models `ValueToRead.h` / `ValueToRead.cpp`: one schedule
  entry (tag, interval, identifiers, resolved address, counters).
* The minute scheduler, the per-entry read cycle (`readValue` plus the
  enqueue in `loop`), and the forwarding loop are modelled from the main
  sketch file.
-/

namespace BleWifi

/-! ## StrQueue: the ring buffer of null-terminated strings -/

/-- State of a `StrQueue` (see `StrQueue.h`): the backing byte array `buf`
(the constructor allocates `nsize + 1` bytes), the write cursor `wrptr`,
the read cursor `rdptr`, and the capacity `maxsize`. -/
structure StrQueue where
  buf : List Nat
  wrptr : Nat
  rdptr : Nat
  maxsize : Nat
deriving Repr, DecidableEq

/-- Cursor wrap used by `push` and `pop`: `if (ptr >= maxsize) ptr = 0;`. -/
def wrapIdx (C i : Nat) : Nat := if C ≤ i then 0 else i

/-- The `StrQueue(int nsize)` constructor: fresh buffer (`new char[nsize+1]`,
modelled zero-filled; the C contents are indeterminate and never read before
being written), both cursors at 0, capacity `nsize`. -/
def StrQueue.new (nsize : Nat) : StrQueue :=
  ⟨List.replicate (nsize + 1) 0, 0, 0, nsize⟩

/-- `int isEmpty() { return wrptr == rdptr; }` -/
def StrQueue.isEmpty (q : StrQueue) : Bool := q.wrptr == q.rdptr

/-- `int used() { return (wrptr >= rdptr) ? wrptr - rdptr : maxsize + wrptr - rdptr; }` -/
def StrQueue.used (q : StrQueue) : Nat :=
  if q.rdptr ≤ q.wrptr then q.wrptr - q.rdptr else q.maxsize + q.wrptr - q.rdptr

/-- `int available() { return maxsize - used() - 1; }` -/
def StrQueue.available (q : StrQueue) : Nat := q.maxsize - q.used - 1

/-- `int size() { return maxsize; }` -/
def StrQueue.size (q : StrQueue) : Nat := q.maxsize

/-- `void makeEmpty() { rdptr = wrptr = 0; }` -/
def StrQueue.makeEmpty (q : StrQueue) : StrQueue := { q with rdptr := 0, wrptr := 0 }

/-- One iteration of the copy loop in `push`:
`buf[wrptr++] = c; if (wrptr >= maxsize) wrptr = 0;`. -/
def StrQueue.writeByte (q : StrQueue) (c : Nat) : StrQueue :=
  { q with buf := q.buf.set q.wrptr c, wrptr := wrapIdx q.maxsize (q.wrptr + 1) }

/-- The copy loop of `push`, writing the given bytes in order. -/
def StrQueue.writeBytes (q : StrQueue) : List Nat → StrQueue
  | [] => q
  | c :: cs => (q.writeByte c).writeBytes cs

/-- `int push(char* s)`: `n = strlen(s)+1; if (n > available()) return 0;`
then copy the `n` bytes (the string plus its terminator) at the write
cursor.  The argument `s` is the C string content (its bytes before the
terminator).  Returns the C status int together with the new state. -/
def StrQueue.push (q : StrQueue) (s : List Nat) : Nat × StrQueue :=
  if s.length + 1 > q.available then (0, q) else (1, q.writeBytes (s ++ [0]))

/-- The body of the copy loop of `pop`, run with `fuel` remaining iterations
(the C loop runs `i = 0 .. maxlen-2`, so it is entered with
`fuel = maxlen - 1`; the test `i == maxlen - 2` is `fuel = 0` after the
current iteration).  Returns the bytes written into the destination
(positions `0, 1, ...`) and the new queue state. -/
def StrQueue.popLoop (q : StrQueue) : Nat → List Nat × StrQueue
  | 0 => ([], q)
  | fuel + 1 =>
    let c := q.buf.getD q.rdptr 0
    let q1 : StrQueue := { q with rdptr := wrapIdx q.maxsize (q.rdptr + 1) }
    if c = 0 then ([c], q1)
    else if q1.rdptr = q1.wrptr then ([c, 0], q1)
    else if fuel = 0 then ([c, 0], q1)
    else
      let r := q1.popLoop fuel
      (c :: r.1, r.2)

/-- `int pop(char* s, int maxlen)`.  Returns the C status int, the bytes the
call wrote into the destination (starting at position 0), and the new queue
state.  `*s = '\0'` happens before the emptiness check, so a failed pop on
an empty queue still writes `[0]`; with `maxlen = 1` the copy loop body
never runs and the destination keeps that initial terminator. -/
def StrQueue.pop (q : StrQueue) (maxlen : Nat) : Nat × List Nat × StrQueue :=
  if maxlen < 1 then (0, [], q)
  else if q.isEmpty then (0, [0], q)
  else if maxlen = 1 then (1, [0], q)
  else
    let r := q.popLoop (maxlen - 1)
    (1, r.1, r.2)

/-- Well-formedness of a queue state: both cursors strictly below the
capacity and the backing array of the allocated length.  This holds for the
constructor's state and is preserved by every operation. -/
def StrQueue.WF (q : StrQueue) : Prop :=
  q.rdptr < q.maxsize ∧ q.wrptr < q.maxsize ∧ q.buf.length = q.maxsize + 1

instance (q : StrQueue) : Decidable q.WF := by
  unfold StrQueue.WF
  exact inferInstance

/-- Byte at logical offset `k` from the read cursor. -/
def StrQueue.readAt (q : StrQueue) (k : Nat) : Nat :=
  q.buf.getD ((q.rdptr + k) % q.maxsize) 0

/-- Logical content of the queue: the `used` bytes from the read cursor to
the write cursor. -/
def StrQueue.content (q : StrQueue) : List Nat :=
  (List.range q.used).map q.readAt

/-- Advancing the read cursor by `k` positions (mod capacity). -/
def StrQueue.advanceRd (q : StrQueue) (k : Nat) : StrQueue :=
  { q with rdptr := (q.rdptr + k) % q.maxsize }

/-- The `used()` conditional as a pure function of capacity and the two
cursors: `(wrptr >= rdptr) ? wrptr - rdptr : maxsize + wrptr - rdptr`. -/
def usedOf (C w r : Nat) : Nat := if r ≤ w then w - r else C + w - r

/-- An arbitrary client operation on a `StrQueue`: its two mutating entry
points (beyond `makeEmpty`, which trivially preserves every invariant). -/
inductive QOp where
  | pushOp (s : List Nat)
  | popOp (maxlen : Nat)
deriving Repr, DecidableEq

def applyQOp (q : StrQueue) : QOp → StrQueue
  | .pushOp s => (q.push s).2
  | .popOp maxlen => (q.pop maxlen).2.2

def runQOps (q : StrQueue) (ops : List QOp) : StrQueue :=
  ops.foldl applyQOp q

/-! ## ValueToRead: one schedule entry (ValueToRead.h / ValueToRead.cpp) -/

/-- `#define BLESVR_ERR_DEVNOTFOUND (1)` -/
def BLESVR_ERR_DEVNOTFOUND : Nat := 1

/-- `#define BLESVR_ERR_CONNECTFAIL (2)` -/
def BLESVR_ERR_CONNECTFAIL : Nat := 2

/-- The fields of `class ValueToRead`.  The `char[]` fields hold the C
string's characters (everything before its terminator). -/
structure ValueToRead where
  valueTag : List Char
  deviceId : List Char
  serviceUuid : List Char
  characteristicUuid : List Char
  deviceAddr : List Char
  minutesBetweenReads : Int
  connects : Int
  errors : Nat
deriving Repr, DecidableEq

/-- The `ValueToRead()` constructor: empty strings, 60-minute default
interval, zero connects, zero errors. -/
def ValueToRead.init : ValueToRead :=
  ⟨[], [], [], [], [], 60, 0, 0⟩

/-- `isspace` characters skipped by `atoi`. -/
def isSpaceChar (c : Char) : Bool :=
  c.toNat = 32 || c.toNat = 9 || c.toNat = 10 ||
  c.toNat = 11 || c.toNat = 12 || c.toNat = 13

def isDigitChar (c : Char) : Bool := 48 ≤ c.toNat && c.toNat ≤ 57

/-- Digit-accumulation loop of `atoi`: consume decimal digits, stop at the
first non-digit. -/
def atoiLoop : List Char → Int → Int
  | [], acc => acc
  | c :: cs, acc =>
    if isDigitChar c then atoiLoop cs (acc * 10 + ((c.toNat : Int) - 48))
    else acc

/-- C `atoi`: skip leading whitespace, optional sign, then decimal digits
(0 when no digits follow).  Modelled with unbounded integers. -/
def atoi (s : List Char) : Int :=
  match s.dropWhile (fun c => isSpaceChar c) with
  | '-' :: rest => -(atoiLoop rest 0)
  | '+' :: rest => atoiLoop rest 0
  | t => atoiLoop t 0

/-- Relative index of the first `','` in the given characters, scanning
left to right and stopping at the C string's terminator (the end of the
list); models the comma-location scan loop of `ValueToRead::set`. -/
def findComma : List Char → Option Nat
  | [] => none
  | c :: rest => if c = ',' then some 0 else (findComma rest).map (· + 1)

/-- The interval clamp in `ValueToRead::set`:
`if (minutesBetweenReads < 1) minutesBetweenReads = 1;`
`if (minutesBetweenReads > 1440) minutesBetweenReads = 1440;`. -/
def clampInterval (m : Int) : Int :=
  if m < 1 then 1 else if m > 1440 then 1440 else m

/-- `ValueToRead::set`, stage after the 3rd comma: `s3` is the line's
remainder; scan for the 4th comma; on success copy the service UUID
(before the comma) and the characteristic UUID (after it), both with the
`strncpy(_, _, 37)` bound. -/
def ValueToRead.setStage4 (v : ValueToRead) (s3 : List Char) :
    String × ValueToRead :=
  match findComma s3 with
  | none => ("format error, 4th comma not found", v)
  | some d3 =>
    ("OK",
      { v with
        serviceUuid := (s3.take d3).take 37
        characteristicUuid := (s3.drop (d3 + 1)).take 37 })

/-- Stage after the 2nd comma: scan for the 3rd comma; on success copy the
device identifier (`strncpy(_, _, 37)`) and continue. -/
def ValueToRead.setStage3 (v : ValueToRead) (s2 : List Char) :
    String × ValueToRead :=
  match findComma s2 with
  | none => ("format error, 3rd comma not found", v)
  | some d2 =>
    ValueToRead.setStage4 { v with deviceId := (s2.take d2).take 37 }
      (s2.drop (d2 + 1))

/-- Stage after the 1st comma: scan for the 2nd comma; on success parse
the interval field with `atoi`, clamp it into `[1, 1440]`, and
continue. -/
def ValueToRead.setStage2 (v : ValueToRead) (s1 : List Char) :
    String × ValueToRead :=
  match findComma s1 with
  | none => ("format error, 2nd comma not found", v)
  | some d1 =>
    ValueToRead.setStage3
      { v with minutesBetweenReads := clampInterval (atoi (s1.take d1)) }
      (s1.drop (d1 + 1))

/-- `char* ValueToRead::set(char* s)`: split the line at its first four
commas (each scan stops at the terminator), populate the fields in order
with the `strncpy` truncation bounds, clamp the interval, and return the
C result message.  On a missing comma the fields already copied stay
populated, matching the C control flow (the comma scan in C runs up front,
but a missing `n`-th comma implies every later comma is also missing, so
the staged scan yields the same result). -/
def ValueToRead.set (v : ValueToRead) (s : List Char) : String × ValueToRead :=
  match findComma s with
  | none => ("format error, 1st comma not found", v)
  | some c0 =>
    ValueToRead.setStage2 { v with valueTag := (s.take c0).take 63 }
      (s.drop (c0 + 1))

/-- Acceptance condition of the fourth comma scan. -/
def commasOk4 (s3 : List Char) : Bool := (findComma s3).isSome

/-- Acceptance condition from the third comma scan on. -/
def commasOk3 (s2 : List Char) : Bool :=
  match findComma s2 with
  | none => false
  | some d2 => commasOk4 (s2.drop (d2 + 1))

/-- Acceptance condition from the second comma scan on. -/
def commasOk2 (s1 : List Char) : Bool :=
  match findComma s1 with
  | none => false
  | some d1 => commasOk3 (s1.drop (d1 + 1))

/-- The acceptance condition of `ValueToRead::set`: all four commas are
found before the line's terminator.  This mirrors the comma scans only —
the characters of the interval field play no part in acceptance. -/
def commasOk (s : List Char) : Bool :=
  match findComma s with
  | none => false
  | some c0 => commasOk2 (s.drop (c0 + 1))

/-! ## ReadEngine, DeviceResolver and CadenceScheduler (main sketch) -/

/-- Character-to-byte view of a C string's content. -/
def bytes (s : List Char) : List Nat := s.map Char.toNat

/-- The C string stored in a destination buffer after a `pop`: its bytes up
to the first terminator. -/
def cstr (l : List Nat) : List Nat := l.takeWhile (fun b => b ≠ 0)

/-- The placeholder value `"*UNKNOWN*"` written by `readValue` when the
connect fails. -/
def UNKNOWN_VALUE : List Nat := bytes "*UNKNOWN*".toList

/-- `void readValue(BLEClient*, ValueToRead* v2rd, char* buf, int maxlen)`:
the wireless transport (connect / `getValue` / disconnect) is an external
collaborator, so its outcome is the parameter `connectOk` and the value it
returns is `readVal`.  On success the entry's connect counter is
incremented and the value is copied (`strncpy`, at most `maxlen - 1`
bytes); on failure the connect-failed bit is set (`errors |=
BLESVR_ERR_CONNECTFAIL`) and the buffer gets `"*UNKNOWN*"`. -/
def readValue (connectOk : Bool) (readVal : List Nat) (maxlen : Nat)
    (v : ValueToRead) : ValueToRead × List Nat :=
  if connectOk then
    ({ v with connects := v.connects + 1 }, readVal.take (maxlen - 1))
  else
    ({ v with errors := v.errors ||| BLESVR_ERR_CONNECTFAIL },
      UNKNOWN_VALUE.take (maxlen - 1))

/-- ASCII comma. -/
def COMMA : Nat := 44

/-- One due entry's processing inside the minute tick of `loop`:
`readValue(pClient, p, buf, 256)` followed by
`sprintf(buf, "%s,%s,%s", ttag.c_str(), p->valueTag, buf)` and
`measuredData.push(buf)`.

The `sprintf` passes `buf` both as the destination and as the third `%s`
source, which C leaves undefined; the ESP32 toolchain's newlib `vfprintf`
resolves each `%s` by taking the source string's length first and then
moving its bytes.  By the time the third `%s` (source `buf`) is consumed,
the `timestamp,tag,` prefix has already overwritten the start of `buf`,
so the value `readValue` stored there is gone: what gets copied is that
prefix itself, followed by whatever tail of the old value extends past
the prefix (`strncpy` zero-padded the rest of `buf`, providing the
terminator).  The pushed record is therefore the prefix followed by a
copy of itself plus that tail — the value (placeholder or real) never
reaches the queue.  A push of some record happens on every due cycle,
whatever the connect outcome.  Returns the updated entry, the push
status, and the queue. -/
def dueCycle (connectOk : Bool) (readVal : List Nat) (ts : List Nat)
    (v : ValueToRead) (q : StrQueue) : ValueToRead × Nat × StrQueue :=
  let r := readValue connectOk readVal 256 v
  let pfx := ts ++ [COMMA] ++ bytes r.1.valueTag ++ [COMMA]
  let record := pfx ++ (pfx ++ r.2.drop pfx.length)
  let p := q.push record
  (r.1, p.1, p.2)

/-- The record a connect-failing due cycle pushes (see `dueCycle`): the
`timestamp,tag,` prefix duplicated, with any tail of the overwritten
`*UNKNOWN*` placeholder that extends past the prefix. -/
def failRecord (ts : List Nat) (tag : List Char) : List Nat :=
  (ts ++ [COMMA] ++ bytes tag ++ [COMMA])
    ++ ((ts ++ [COMMA] ++ bytes tag ++ [COMMA])
      ++ (UNKNOWN_VALUE.take 255).drop
        (ts ++ [COMMA] ++ bytes tag ++ [COMMA]).length)

/-- 2^32: modulus of the 32-bit `unsigned long` on the ESP32. -/
def ULONG_MOD : Nat := 4294967296

/-- `minuteCounter = -1;` in `setup`, stored in an `unsigned long`. -/
def initialMinuteCounter : Nat := ULONG_MOD - 1

/-- `minuteCounter++` on a minute tick. -/
def tickCounter (c : Nat) : Nat := (c + 1) % ULONG_MOD

/-- The due test of the minute tick:
`(minuteCounter % p->minutesBetweenReads == 0) && (p->deviceAddr[0] != '\0')`.
The C `%` is computed in `unsigned long`; for the reachable intervals
(always in `[1, 1440]`) this is plain natural-number mod of the counter by
the interval. -/
def isDue (counter : Nat) (v : ValueToRead) : Bool :=
  counter % v.minutesBetweenReads.toNat == 0 && !v.deviceAddr.isEmpty

/-- The per-tick due scan over the schedule table, in table order. -/
def dueEntries (counter : Nat) (vs : List ValueToRead) : List ValueToRead :=
  vs.filter (isDue counter)

/-- Every mutation the program ever applies to one `ValueToRead` after
construction: configuration parsing (`set`, from `setup`), address
resolution (the `onResult` discovery callback does
`strncpy(p->deviceAddr, devAddr, 18)`), and the two outcomes of
`readValue`. -/
inductive EntryOp where
  | parseLine (line : List Char)
  | resolve (addr : List Char)
  | readSuccess (readVal : List Nat)
  | readConnectFail
deriving Repr

def applyEntryOp (v : ValueToRead) : EntryOp → ValueToRead
  | .parseLine line => (v.set line).2
  | .resolve addr => { v with deviceAddr := addr.take 18 }
  | .readSuccess readVal => (readValue true readVal 256 v).1
  | .readConnectFail => (readValue false [] 256 v).1

def runEntryOps (ops : List EntryOp) : ValueToRead :=
  ops.foldl applyEntryOp ValueToRead.init

/-! ## Forwarder (main sketch, bottom of `loop`) -/

/-- One forwarding attempt per control-loop iteration:
`if (measuredData.isEmpty() == 0) { buf1[0]='\0'; sts = pop(buf1,384);`
`if (sts && strlen(buf1) > 0) { sts = forwardValueToIotHub(buf1);`
`if (!sts) measuredData.push(buf1); } }`.
The uplink transport is an external collaborator, so this attempt's outcome
is the parameter `deliverOk`.  Returns the new queue and the record
delivered to the sink this iteration (if any). -/
def forwardStep (deliverOk : Bool) (q : StrQueue) :
    StrQueue × Option (List Nat) :=
  if q.isEmpty then (q, none)
  else
    let r := q.pop 384
    let s := cstr r.2.1
    if r.1 ≠ 0 ∧ s ≠ [] then
      if deliverOk then (r.2.2, some s)
      else ((r.2.2.push s).2, none)
    else (r.2.2, none)

/-- Iterated forwarding, one delivery outcome per iteration; returns the
final queue and the records delivered to the sink, in delivery order. -/
def forwardRun (q : StrQueue) : List Bool → StrQueue × List (List Nat)
  | [] => (q, [])
  | b :: bs =>
    let r := forwardStep b q
    let rest := forwardRun r.1 bs
    (rest.1, r.2.toList ++ rest.2)

/-! ## Arithmetic helpers for the wrapping cursors -/

theorem wrapIdx_eq_mod {C i : Nat} (h : i ≤ C) (hC : 0 < C) :
    wrapIdx C i = i % C := by
  unfold wrapIdx
  rcases Nat.lt_or_ge i C with hlt | hge
  · rw [if_neg (by omega), Nat.mod_eq_of_lt hlt]
  · have : i = C := by omega
    subst this
    rw [if_pos (le_refl _), Nat.mod_self]

theorem mod_two_windows {C x : Nat} (hC : 0 < C) (h : x < 2 * C) :
    x % C = if x < C then x else x - C := by
  split
  · exact Nat.mod_eq_of_lt (by assumption)
  · have h1 : C ≤ x := by omega
    rw [Nat.mod_eq_sub_mod h1, Nat.mod_eq_of_lt (by omega)]

theorem add_mod_cancel_iff (C r k m : Nat) (hk : k < C) (hm : m < C) :
    (r + k) % C = (r + m) % C ↔ k = m := by
  constructor
  · intro h
    have h2 : k % C = m % C := Nat.ModEq.add_left_cancel' r h
    rwa [Nat.mod_eq_of_lt hk, Nat.mod_eq_of_lt hm] at h2
  · intro h
    rw [h]

theorem add_assoc_mod {C r a b : Nat} :
    ((r + a) % C + b) % C = (r + a + b) % C := Nat.mod_add_mod (r + a) C b

/-! ## Basic structural lemmas about `StrQueue` operations -/

theorem StrQueue.used_lt {q : StrQueue} (h : q.WF) : q.used < q.maxsize := by
  obtain ⟨hr, hw, _⟩ := h
  unfold StrQueue.used
  split <;> omega

theorem StrQueue.writeByte_rdptr (q : StrQueue) (c : Nat) :
    (q.writeByte c).rdptr = q.rdptr := rfl

theorem StrQueue.writeByte_maxsize (q : StrQueue) (c : Nat) :
    (q.writeByte c).maxsize = q.maxsize := rfl

theorem StrQueue.writeBytes_rdptr (q : StrQueue) (l : List Nat) :
    (q.writeBytes l).rdptr = q.rdptr := by
  induction l generalizing q with
  | nil => rfl
  | cons c cs ih => simp [StrQueue.writeBytes, ih, StrQueue.writeByte]

theorem StrQueue.writeBytes_maxsize (q : StrQueue) (l : List Nat) :
    (q.writeBytes l).maxsize = q.maxsize := by
  induction l generalizing q with
  | nil => rfl
  | cons c cs ih => simp [StrQueue.writeBytes, ih, StrQueue.writeByte]

theorem StrQueue.writeBytes_bufLength (q : StrQueue) (l : List Nat) :
    (q.writeBytes l).buf.length = q.buf.length := by
  induction l generalizing q with
  | nil => rfl
  | cons c cs ih =>
    simp [StrQueue.writeBytes, ih, StrQueue.writeByte]

theorem StrQueue.writeBytes_wrptr (q : StrQueue) (l : List Nat)
    (hw : q.wrptr < q.maxsize) :
    (q.writeBytes l).wrptr = (q.wrptr + l.length) % q.maxsize := by
  induction l generalizing q with
  | nil =>
    simp [StrQueue.writeBytes, Nat.mod_eq_of_lt hw]
  | cons c cs ih =>
    have hC : 0 < q.maxsize := by omega
    have h1 : (q.writeByte c).wrptr = (q.wrptr + 1) % q.maxsize := by
      unfold StrQueue.writeByte
      exact wrapIdx_eq_mod (by omega) hC
    have h2 : (q.writeByte c).wrptr < (q.writeByte c).maxsize := by
      rw [h1, StrQueue.writeByte_maxsize]
      exact Nat.mod_lt _ hC
    have := ih (q.writeByte c) h2
    simp only [StrQueue.writeBytes]
    rw [this, h1, StrQueue.writeByte_maxsize, add_assoc_mod]
    simp [Nat.add_assoc, Nat.add_comm 1 cs.length]

theorem StrQueue.WF_writeBytes {q : StrQueue} (l : List Nat) (h : q.WF) :
    (q.writeBytes l).WF := by
  obtain ⟨hr, hw, hb⟩ := h
  have hC : 0 < q.maxsize := by omega
  refine ⟨?_, ?_, ?_⟩
  · rw [StrQueue.writeBytes_rdptr, StrQueue.writeBytes_maxsize]; exact hr
  · rw [StrQueue.writeBytes_wrptr q l hw, StrQueue.writeBytes_maxsize]
    exact Nat.mod_lt _ hC
  · rw [StrQueue.writeBytes_bufLength, StrQueue.writeBytes_maxsize, hb]

theorem StrQueue.WF_push {q : StrQueue} (s : List Nat) (h : q.WF) :
    (q.push s).2.WF := by
  unfold StrQueue.push
  split
  · exact h
  · exact StrQueue.WF_writeBytes _ h

theorem StrQueue.popLoop_wrptr (q : StrQueue) (fuel : Nat) :
    (q.popLoop fuel).2.wrptr = q.wrptr := by
  induction fuel generalizing q with
  | zero => rfl
  | succ f ih =>
    simp only [StrQueue.popLoop]
    split
    · rfl
    · split
      · rfl
      · split
        · rfl
        · exact ih _

theorem StrQueue.popLoop_maxsize (q : StrQueue) (fuel : Nat) :
    (q.popLoop fuel).2.maxsize = q.maxsize := by
  induction fuel generalizing q with
  | zero => rfl
  | succ f ih =>
    simp only [StrQueue.popLoop]
    split
    · rfl
    · split
      · rfl
      · split
        · rfl
        · exact ih _

theorem StrQueue.popLoop_buf (q : StrQueue) (fuel : Nat) :
    (q.popLoop fuel).2.buf = q.buf := by
  induction fuel generalizing q with
  | zero => rfl
  | succ f ih =>
    simp only [StrQueue.popLoop]
    split
    · rfl
    · split
      · rfl
      · split
        · rfl
        · exact ih _

theorem StrQueue.popLoop_rdptr_lt (q : StrQueue) (fuel : Nat)
    (h : q.WF) : (q.popLoop fuel).2.rdptr < q.maxsize := by
  induction fuel generalizing q with
  | zero => exact h.1
  | succ f ih =>
    obtain ⟨hr, hw, hb⟩ := h
    have hC : 0 < q.maxsize := by omega
    have hwrap : wrapIdx q.maxsize (q.rdptr + 1) < q.maxsize := by
      rw [wrapIdx_eq_mod (by omega) hC]
      exact Nat.mod_lt _ hC
    simp only [StrQueue.popLoop]
    split
    · exact hwrap
    · split
      · exact hwrap
      · split
        · exact hwrap
        · have := ih { q with rdptr := wrapIdx q.maxsize (q.rdptr + 1) }
            ⟨hwrap, hw, hb⟩
          exact this

theorem StrQueue.WF_popLoop {q : StrQueue} (fuel : Nat) (h : q.WF) :
    (q.popLoop fuel).2.WF := by
  refine ⟨?_, ?_, ?_⟩
  · rw [StrQueue.popLoop_maxsize]
    exact StrQueue.popLoop_rdptr_lt q fuel h
  · rw [StrQueue.popLoop_maxsize, StrQueue.popLoop_wrptr]
    exact h.2.1
  · rw [StrQueue.popLoop_maxsize, StrQueue.popLoop_buf]
    exact h.2.2

theorem StrQueue.WF_pop {q : StrQueue} (maxlen : Nat) (h : q.WF) :
    (q.pop maxlen).2.2.WF := by
  unfold StrQueue.pop
  split
  · exact h
  · split
    · exact h
    · split
      · exact h
      · exact StrQueue.WF_popLoop _ h

/-! ## `used` under cursor movement -/

theorem StrQueue.used_eq_usedOf (q : StrQueue) :
    q.used = usedOf q.maxsize q.wrptr q.rdptr := rfl

theorem usedOf_lt {C w r : Nat} (hr : r < C) (hw : w < C) : usedOf C w r < C := by
  unfold usedOf
  split <;> omega

theorem usedOf_advanceWr {C w r n : Nat} (hr : r < C) (hw : w < C)
    (hn : usedOf C w r + n < C) :
    usedOf C ((w + n) % C) r = usedOf C w r + n := by
  have hC : 0 < C := by omega
  have hn2 : w + n < 2 * C := by
    unfold usedOf at hn
    split at hn <;> omega
  unfold usedOf at hn ⊢
  rcases Nat.lt_or_ge (w + n) C with h1 | h1
  · rw [Nat.mod_eq_of_lt h1]
    split at hn <;> split <;> omega
  · rw [Nat.mod_eq_sub_mod h1, Nat.mod_eq_of_lt (by omega)]
    split at hn <;> split <;> omega

theorem usedOf_advanceRd {C w r k : Nat} (hr : r < C) (hw : w < C)
    (hk : k ≤ usedOf C w r) :
    usedOf C w ((r + k) % C) = usedOf C w r - k := by
  have hC : 0 < C := by omega
  have hu : usedOf C w r < C := usedOf_lt hr hw
  have hk2 : r + k < 2 * C := by omega
  unfold usedOf at hk hu ⊢
  rcases Nat.lt_or_ge (r + k) C with h1 | h1
  · rw [Nat.mod_eq_of_lt h1]
    split at hk <;> split <;> omega
  · rw [Nat.mod_eq_sub_mod h1, Nat.mod_eq_of_lt (by omega)]
    split at hk <;> split <;> omega

theorem StrQueue.wrptr_eq_rdptr_add_used {q : StrQueue} (h : q.WF) :
    q.wrptr = (q.rdptr + q.used) % q.maxsize := by
  obtain ⟨hr, hw, _⟩ := h
  unfold StrQueue.used
  split
  · rw [Nat.add_sub_cancel' (by assumption), Nat.mod_eq_of_lt hw]
  · have hx : q.rdptr + (q.maxsize + q.wrptr - q.rdptr) = q.maxsize + q.wrptr := by
      omega
    rw [hx, Nat.add_mod_left, Nat.mod_eq_of_lt hw]

/-! ## What `writeBytes` leaves in the buffer -/

theorem StrQueue.writeBytes_getD_old (l : List Nat) (q : StrQueue) (i : Nat)
    (hw : q.wrptr < q.maxsize)
    (hdisj : ∀ j, j < l.length → i ≠ (q.wrptr + j) % q.maxsize) :
    (q.writeBytes l).buf.getD i 0 = q.buf.getD i 0 := by
  induction l generalizing q with
  | nil => rfl
  | cons c cs ih =>
    have hC : 0 < q.maxsize := by omega
    have hw1 : (q.writeByte c).wrptr = (q.wrptr + 1) % q.maxsize :=
      wrapIdx_eq_mod (by omega) hC
    have hw1lt : (q.writeByte c).wrptr < (q.writeByte c).maxsize := by
      rw [hw1]; exact Nat.mod_lt _ hC
    have hdisj1 : ∀ j, j < cs.length →
        i ≠ ((q.writeByte c).wrptr + j) % (q.writeByte c).maxsize := by
      intro j hj
      rw [hw1, StrQueue.writeByte_maxsize, add_assoc_mod]
      have := hdisj (1 + j) (by simp; omega)
      rwa [← Nat.add_assoc] at this
    have hstep : (q.writeByte c).buf.getD i 0 = q.buf.getD i 0 := by
      have hne : q.wrptr ≠ i := by
        have := hdisj 0 (by simp)
        rw [Nat.add_zero, Nat.mod_eq_of_lt hw] at this
        omega
      unfold StrQueue.writeByte
      rw [List.getD_eq_getElem?_getD, List.getD_eq_getElem?_getD,
        List.getElem?_set_ne hne]
    rw [show q.writeBytes (c :: cs) = (q.writeByte c).writeBytes cs from rfl,
      ih (q.writeByte c) hw1lt hdisj1, hstep]

theorem StrQueue.writeBytes_getD_new (l : List Nat) (q : StrQueue) (j : Nat)
    (hj : j < l.length) (hw : q.wrptr < q.maxsize)
    (hb : q.maxsize < q.buf.length) (hl : l.length ≤ q.maxsize) :
    (q.writeBytes l).buf.getD ((q.wrptr + j) % q.maxsize) 0 = l.getD j 0 := by
  induction l generalizing q j with
  | nil => exact absurd hj (by simp)
  | cons c cs ih =>
    have hC : 0 < q.maxsize := by omega
    have hw1 : (q.writeByte c).wrptr = (q.wrptr + 1) % q.maxsize :=
      wrapIdx_eq_mod (by omega) hC
    have hw1lt : (q.writeByte c).wrptr < (q.writeByte c).maxsize := by
      rw [hw1]; exact Nat.mod_lt _ hC
    have hb1 : (q.writeByte c).maxsize < (q.writeByte c).buf.length := by
      unfold StrQueue.writeByte
      simpa using hb
    match j with
    | 0 =>
      rw [Nat.add_zero, Nat.mod_eq_of_lt hw,
        show q.writeBytes (c :: cs) = (q.writeByte c).writeBytes cs from rfl]
      have hdisj : ∀ j, j < cs.length →
          q.wrptr ≠ ((q.writeByte c).wrptr + j) % (q.writeByte c).maxsize := by
        intro j hj'
        rw [hw1, StrQueue.writeByte_maxsize, add_assoc_mod]
        intro hcontra
        have h0 : (q.wrptr + 0) % q.maxsize = (q.wrptr + (1 + j)) % q.maxsize := by
          rw [Nat.add_zero, Nat.mod_eq_of_lt hw, ← Nat.add_assoc]
          exact hcontra
        have hlen : cs.length + 1 ≤ q.maxsize := by simpa using hl
        have := (add_mod_cancel_iff q.maxsize q.wrptr 0 (1 + j) (by omega)
          (by omega)).mp h0
        omega
      rw [StrQueue.writeBytes_getD_old cs (q.writeByte c) q.wrptr hw1lt hdisj]
      unfold StrQueue.writeByte
      simp only
      rw [List.getD_eq_getElem?_getD, List.getElem?_set_eq_of_lt _ (by omega)]
      rfl
    | j' + 1 =>
      have hpos : (q.wrptr + (j' + 1)) % q.maxsize
          = ((q.writeByte c).wrptr + j') % (q.writeByte c).maxsize := by
        rw [hw1, StrQueue.writeByte_maxsize, add_assoc_mod, Nat.add_assoc,
          Nat.add_comm 1 j']
      rw [show q.writeBytes (c :: cs) = (q.writeByte c).writeBytes cs from rfl,
        hpos, ih (q.writeByte c) j' (by simpa using hj) hw1lt hb1
          (by rw [StrQueue.writeByte_maxsize]; simp at hl; omega)]
      rfl

/-! ## The effect of a fitting `push` on the logical content -/

theorem StrQueue.push_eq_of_fit {q : StrQueue} {s : List Nat}
    (hfit : s.length + 1 ≤ q.available) :
    q.push s = (1, q.writeBytes (s ++ [0])) := by
  unfold StrQueue.push
  rw [if_neg (by omega)]

theorem StrQueue.used_bound_of_fit {q : StrQueue} {s : List Nat} (h : q.WF)
    (hfit : s.length + 1 ≤ q.available) :
    q.used + (s.length + 1) < q.maxsize := by
  have h1 : q.used < q.maxsize := StrQueue.used_lt h
  have h2 : q.available = q.maxsize - q.used - 1 := rfl
  omega

theorem StrQueue.used_push {q : StrQueue} (s : List Nat) (h : q.WF)
    (hfit : s.length + 1 ≤ q.available) :
    (q.writeBytes (s ++ [0])).used = q.used + (s.length + 1) := by
  obtain ⟨hr, hw, hb⟩ := h
  have hbound := StrQueue.used_bound_of_fit ⟨hr, hw, hb⟩ hfit
  rw [StrQueue.used_eq_usedOf, StrQueue.writeBytes_wrptr q _ hw,
    StrQueue.writeBytes_rdptr, StrQueue.writeBytes_maxsize]
  have hlen : (s ++ [0]).length = s.length + 1 := by simp
  rw [hlen]
  rw [StrQueue.used_eq_usedOf] at hbound
  exact usedOf_advanceWr hr hw hbound

theorem StrQueue.readAt_push_old {q : StrQueue} (s : List Nat) (k : Nat)
    (h : q.WF) (hfit : s.length + 1 ≤ q.available) (hk : k < q.used) :
    (q.writeBytes (s ++ [0])).readAt k = q.readAt k := by
  obtain ⟨hr, hw, hb⟩ := h
  have hbound := StrQueue.used_bound_of_fit ⟨hr, hw, hb⟩ hfit
  have hused : q.used < q.maxsize := StrQueue.used_lt ⟨hr, hw, hb⟩
  unfold StrQueue.readAt
  rw [StrQueue.writeBytes_rdptr, StrQueue.writeBytes_maxsize]
  apply StrQueue.writeBytes_getD_old _ _ _ hw
  intro j hj heq
  have hwu : q.wrptr = (q.rdptr + q.used) % q.maxsize :=
    StrQueue.wrptr_eq_rdptr_add_used ⟨hr, hw, hb⟩
  rw [hwu, add_assoc_mod, Nat.add_assoc] at heq
  have hjn : j < s.length + 1 := by simpa using hj
  have := (add_mod_cancel_iff q.maxsize q.rdptr k (q.used + j) (by omega)
    (by omega)).mp heq
  omega

theorem StrQueue.readAt_push_new {q : StrQueue} (s : List Nat) (m : Nat)
    (h : q.WF) (hfit : s.length + 1 ≤ q.available) (hm : m < s.length + 1) :
    (q.writeBytes (s ++ [0])).readAt (q.used + m) = (s ++ [0]).getD m 0 := by
  obtain ⟨hr, hw, hb⟩ := h
  have hbound := StrQueue.used_bound_of_fit ⟨hr, hw, hb⟩ hfit
  unfold StrQueue.readAt
  rw [StrQueue.writeBytes_rdptr, StrQueue.writeBytes_maxsize]
  have hwu : q.wrptr = (q.rdptr + q.used) % q.maxsize :=
    StrQueue.wrptr_eq_rdptr_add_used ⟨hr, hw, hb⟩
  have hpos : (q.rdptr + (q.used + m)) % q.maxsize
      = (q.wrptr + m) % q.maxsize := by
    rw [hwu, add_assoc_mod, Nat.add_assoc]
  rw [hpos]
  exact StrQueue.writeBytes_getD_new (s ++ [0]) q m (by simpa using hm) hw
    (by omega) (by simp; omega)

theorem StrQueue.content_push {q : StrQueue} (s : List Nat) (h : q.WF)
    (hfit : s.length + 1 ≤ q.available) :
    (q.writeBytes (s ++ [0])).content = q.content ++ (s ++ [0]) := by
  have hused := StrQueue.used_push s h hfit
  apply List.ext_getElem
  · simp [StrQueue.content, hused]
  · intro i h1 h2
    simp only [StrQueue.content, List.getElem_map, List.getElem_range]
    have hi : i < q.used + (s.length + 1) := by
      simpa [StrQueue.content, hused] using h1
    rcases Nat.lt_or_ge i q.used with hlt | hge
    · rw [StrQueue.readAt_push_old s i h hfit hlt]
      rw [List.getElem_append_left (by simpa [StrQueue.content] using hlt)]
      simp [StrQueue.content, List.getElem_map, List.getElem_range]
    · have hm : i - q.used < s.length + 1 := by omega
      have hnew := StrQueue.readAt_push_new s (i - q.used) h hfit hm
      rw [show q.used + (i - q.used) = i from by omega] at hnew
      rw [hnew]
      rw [List.getElem_append_right (by simpa [StrQueue.content] using hge)]
      have hclen : (List.map q.readAt (List.range q.used)).length = q.used := by
        simp
      rw [List.getD_eq_getElem (s ++ [0]) 0 (by simpa using hm)]
      congr 1
      omega

/-! ## The effect of `pop` on the logical content -/

theorem StrQueue.used_eq_zero_iff {q : StrQueue} (h : q.WF) :
    q.used = 0 ↔ q.wrptr = q.rdptr := by
  obtain ⟨hr, hw, _⟩ := h
  unfold StrQueue.used
  split <;> omega

theorem StrQueue.getD_rdptr_eq_readAt {q : StrQueue} (hr : q.rdptr < q.maxsize) :
    q.buf.getD q.rdptr 0 = q.readAt 0 := by
  unfold StrQueue.readAt
  rw [Nat.add_zero, Nat.mod_eq_of_lt hr]

theorem StrQueue.advanceRd_one {q : StrQueue} (hr : q.rdptr < q.maxsize) :
    ({ q with rdptr := wrapIdx q.maxsize (q.rdptr + 1) } : StrQueue)
      = q.advanceRd 1 := by
  unfold StrQueue.advanceRd
  rw [wrapIdx_eq_mod (by omega) (by omega)]

theorem StrQueue.advanceRd_advanceRd (q : StrQueue) (a b : Nat) :
    (q.advanceRd a).advanceRd b = q.advanceRd (a + b) := by
  unfold StrQueue.advanceRd
  simp only [add_assoc_mod, Nat.add_assoc]

theorem StrQueue.WF_advanceRd {q : StrQueue} (k : Nat) (h : q.WF) :
    (q.advanceRd k).WF := by
  obtain ⟨hr, hw, hb⟩ := h
  exact ⟨Nat.mod_lt _ (by omega), hw, hb⟩

theorem StrQueue.used_advanceRd {q : StrQueue} (k : Nat) (h : q.WF)
    (hk : k ≤ q.used) : (q.advanceRd k).used = q.used - k := by
  obtain ⟨hr, hw, _⟩ := h
  rw [StrQueue.used_eq_usedOf, StrQueue.used_eq_usedOf]
  exact usedOf_advanceRd hr hw hk

theorem StrQueue.readAt_advanceRd (q : StrQueue) (k j : Nat) :
    (q.advanceRd k).readAt j = q.readAt (k + j) := by
  unfold StrQueue.advanceRd StrQueue.readAt
  simp only [add_assoc_mod, Nat.add_assoc]

theorem StrQueue.popLoop_spec (s : List Nat) :
    ∀ (q : StrQueue) (fuel : Nat), q.WF →
    (∀ j, j < s.length → q.readAt j = s.getD j 0) →
    (∀ x ∈ s, x ≠ 0) →
    q.readAt s.length = 0 →
    s.length + 1 ≤ q.used →
    s.length + 1 ≤ fuel →
    q.popLoop fuel = (s ++ [0], q.advanceRd (s.length + 1)) := by
  induction s with
  | nil =>
    intro q fuel hWF hreads hnz hterm hused hfuel
    obtain ⟨hr, hw, hb⟩ := hWF
    obtain ⟨f, rfl⟩ : ∃ f, fuel = f + 1 := ⟨fuel - 1, by omega⟩
    have hc : q.buf.getD q.rdptr 0 = 0 := by
      rw [StrQueue.getD_rdptr_eq_readAt hr]
      simpa using hterm
    simp only [StrQueue.popLoop]
    rw [if_pos hc, hc]
    rw [StrQueue.advanceRd_one hr]
    simp
  | cons a s' ih =>
    intro q fuel hWF hreads hnz hterm hused hfuel
    obtain ⟨hr, hw, hb⟩ := hWF
    have hC : 0 < q.maxsize := by omega
    have husedlt : q.used < q.maxsize := StrQueue.used_lt ⟨hr, hw, hb⟩
    obtain ⟨f, rfl⟩ : ∃ f, fuel = f + 1 := ⟨fuel - 1, by omega⟩
    have hslen : (a :: s').length = s'.length + 1 := by simp
    have hc : q.buf.getD q.rdptr 0 = a := by
      rw [StrQueue.getD_rdptr_eq_readAt hr]
      have := hreads 0 (by simp)
      simpa using this
    have hane : a ≠ 0 := hnz a (by simp)
    have hq1 : ({ q with rdptr := wrapIdx q.maxsize (q.rdptr + 1) } : StrQueue)
        = q.advanceRd 1 := StrQueue.advanceRd_one hr
    have hWF1 : (q.advanceRd 1).WF := StrQueue.WF_advanceRd 1 ⟨hr, hw, hb⟩
    have hnotw : (q.advanceRd 1).rdptr ≠ q.wrptr := by
      unfold StrQueue.advanceRd
      simp only
      intro heq
      have hwu : q.wrptr = (q.rdptr + q.used) % q.maxsize :=
        StrQueue.wrptr_eq_rdptr_add_used ⟨hr, hw, hb⟩
      rw [hwu] at heq
      have := (add_mod_cancel_iff q.maxsize q.rdptr 1 q.used
        (by simp at hused; omega) (by omega)).mp heq
      simp at hused
      omega
    have hused1 : s'.length + 1 ≤ (q.advanceRd 1).used := by
      rw [StrQueue.used_advanceRd 1 ⟨hr, hw, hb⟩ (by simp at hused; omega)]
      simp at hused
      omega
    have hreads1 : ∀ j, j < s'.length →
        (q.advanceRd 1).readAt j = s'.getD j 0 := by
      intro j hj
      rw [StrQueue.readAt_advanceRd]
      have := hreads (1 + j) (by simp; omega)
      rw [this]
      rw [Nat.add_comm 1 j]
      rfl
    have hterm1 : (q.advanceRd 1).readAt s'.length = 0 := by
      rw [StrQueue.readAt_advanceRd]
      have : (1 : Nat) + s'.length = (a :: s').length := by simp; omega
      rw [this]
      exact hterm
    have hfne : f ≠ 0 := by simp at hfuel; omega
    have hrec := ih (q.advanceRd 1) f hWF1 hreads1
      (fun x hx => hnz x (by simp [hx])) hterm1 hused1 (by simp at hfuel; omega)
    have hcond : ¬ (wrapIdx q.maxsize (q.rdptr + 1) = q.wrptr) := by
      have h1 : wrapIdx q.maxsize (q.rdptr + 1) = (q.advanceRd 1).rdptr := by
        rw [← hq1]
      rw [h1]
      exact hnotw
    simp only [StrQueue.popLoop]
    rw [if_neg (by rw [hc]; exact hane), if_neg hcond, if_neg hfne, hq1, hrec,
      hc, StrQueue.advanceRd_advanceRd]
    simp [Nat.add_comm]

theorem StrQueue.not_isEmpty_of_used_pos {q : StrQueue} (h : q.WF)
    (hpos : 0 < q.used) : ¬ (q.isEmpty = true) := by
  unfold StrQueue.isEmpty
  simp only [beq_iff_eq]
  intro heq
  rw [(StrQueue.used_eq_zero_iff h).mpr heq] at hpos
  omega

/-- A `pop` whose destination is large enough, applied to a queue whose
front record is the null-free string `s`: it returns exactly `s ++ [0]` and
consumes exactly `s.length + 1` bytes. -/
theorem StrQueue.pop_spec {q : StrQueue} (s : List Nat) (maxlen : Nat)
    (h : q.WF)
    (hreads : ∀ j, j < s.length → q.readAt j = s.getD j 0)
    (hnz : ∀ x ∈ s, x ≠ 0)
    (hterm : q.readAt s.length = 0)
    (hused : s.length + 1 ≤ q.used)
    (hlen : s.length + 2 ≤ maxlen) :
    q.pop maxlen = (1, s ++ [0], q.advanceRd (s.length + 1)) := by
  unfold StrQueue.pop
  rw [if_neg (by omega),
    if_neg (StrQueue.not_isEmpty_of_used_pos h (by omega)),
    if_neg (by omega)]
  rw [StrQueue.popLoop_spec s q (maxlen - 1) h hreads hnz hterm hused
    (by omega)]

theorem StrQueue.content_getD {q : StrQueue} (j : Nat) (hj : j < q.used) :
    q.content.getD j 0 = q.readAt j := by
  unfold StrQueue.content
  rw [List.getD_eq_getElem _ _ (by simpa using hj)]
  simp

theorem StrQueue.content_length (q : StrQueue) : q.content.length = q.used := by
  simp [StrQueue.content]

theorem StrQueue.content_advanceRd {q : StrQueue} (k : Nat) (h : q.WF)
    (hk : k ≤ q.used) :
    (q.advanceRd k).content = q.content.drop k := by
  have hused := StrQueue.used_advanceRd k h hk
  apply List.ext_getElem
  · rw [StrQueue.content_length, hused, List.length_drop,
      StrQueue.content_length]
  · intro i h1 h2
    rw [List.getElem_drop]
    simp only [StrQueue.content, List.getElem_map, List.getElem_range]
    rw [StrQueue.readAt_advanceRd]

/-- Content-level specification of a full-record `pop`: if the queue's
content starts with the null-free record `s` and its terminator, a `pop`
with a destination larger than the record returns exactly the record and
leaves exactly the rest of the content. -/
theorem StrQueue.pop_content {q : StrQueue} (s rest : List Nat)
    (maxlen : Nat) (h : q.WF)
    (hcontent : q.content = s ++ [0] ++ rest)
    (hnz : ∀ x ∈ s, x ≠ 0)
    (hlen : s.length + 2 ≤ maxlen) :
    q.pop maxlen = (1, s ++ [0], q.advanceRd (s.length + 1)) ∧
    (q.advanceRd (s.length + 1)).content = rest := by
  have hul : q.used = s.length + 1 + rest.length := by
    rw [← StrQueue.content_length, hcontent]
    simp only [List.length_append, List.length_cons, List.length_nil]
  have hreads : ∀ j, j < s.length → q.readAt j = s.getD j 0 := by
    intro j hj
    rw [← StrQueue.content_getD j (by omega), hcontent, List.append_assoc,
      List.getD_append _ _ _ _ (by omega)]
  have hterm : q.readAt s.length = 0 := by
    rw [← StrQueue.content_getD s.length (by omega), hcontent,
      List.append_assoc, List.getD_append_right _ _ _ _ (by omega)]
    simp
  have hpop := StrQueue.pop_spec s maxlen h hreads hnz hterm (by omega) hlen
  refine ⟨hpop, ?_⟩
  rw [StrQueue.content_advanceRd _ h (by omega), hcontent,
    List.drop_append_of_le_length (by simp), List.drop_eq_nil_of_le (by simp)]
  simp

/-- Combined content-level specification of a fitting `push`. -/
theorem StrQueue.push_content {q : StrQueue} (s : List Nat) (h : q.WF)
    (hfit : s.length + 1 ≤ q.available) :
    (q.push s).1 = 1 ∧ (q.push s).2.content = q.content ++ (s ++ [0]) ∧
    (q.push s).2.WF ∧ (q.push s).2.used = q.used + (s.length + 1) := by
  rw [StrQueue.push_eq_of_fit hfit]
  exact ⟨rfl, StrQueue.content_push s h hfit, StrQueue.WF_writeBytes _ h,
    StrQueue.used_push s h hfit⟩

/-- The copy loop of `pop` when the destination is exhausted first: all
`fuel` bytes it reads are non-null, so it copies `fuel` bytes, writes the
forced terminator, and stops with the read cursor advanced by `fuel`. -/
theorem StrQueue.popLoop_trunc :
    ∀ (fuel : Nat) (q : StrQueue), q.WF → 0 < fuel →
    (∀ j, j < fuel → q.readAt j ≠ 0) →
    fuel + 1 ≤ q.used →
    q.popLoop fuel = ((List.range fuel).map q.readAt ++ [0], q.advanceRd fuel)
  := by
  intro fuel
  induction fuel with
  | zero => intro q hWF hpos; omega
  | succ f ih =>
    intro q hWF hpos hnz hused
    obtain ⟨hr, hw, hb⟩ := hWF
    have hC : 0 < q.maxsize := by omega
    have husedlt : q.used < q.maxsize := StrQueue.used_lt ⟨hr, hw, hb⟩
    have hc : q.buf.getD q.rdptr 0 = q.readAt 0 :=
      StrQueue.getD_rdptr_eq_readAt hr
    have hcne : ¬ (q.buf.getD q.rdptr 0 = 0) := by
      rw [hc]
      exact hnz 0 (by omega)
    have hq1 : ({ q with rdptr := wrapIdx q.maxsize (q.rdptr + 1) } : StrQueue)
        = q.advanceRd 1 := StrQueue.advanceRd_one hr
    have hnotw : (q.advanceRd 1).rdptr ≠ q.wrptr := by
      unfold StrQueue.advanceRd
      simp only
      intro heq
      have hwu : q.wrptr = (q.rdptr + q.used) % q.maxsize :=
        StrQueue.wrptr_eq_rdptr_add_used ⟨hr, hw, hb⟩
      rw [hwu] at heq
      have := (add_mod_cancel_iff q.maxsize q.rdptr 1 q.used
        (by omega) (by omega)).mp heq
      omega
    have hcond : ¬ (wrapIdx q.maxsize (q.rdptr + 1) = q.wrptr) := by
      have h1 : wrapIdx q.maxsize (q.rdptr + 1) = (q.advanceRd 1).rdptr := by
        rw [← hq1]
      rw [h1]
      exact hnotw
    by_cases hf : f = 0
    · subst hf
      simp only [StrQueue.popLoop]
      rw [if_neg hcne, if_neg hcond, hq1, hc,
        show List.range 1 = [0] from rfl]
      simp
    · have hWF1 : (q.advanceRd 1).WF := StrQueue.WF_advanceRd 1 ⟨hr, hw, hb⟩
      have hrec := ih (q.advanceRd 1) hWF1 (by omega)
        (by
          intro j hj
          rw [StrQueue.readAt_advanceRd]
          exact hnz (1 + j) (by omega))
        (by
          rw [StrQueue.used_advanceRd 1 ⟨hr, hw, hb⟩ (by omega)]
          omega)
      simp only [StrQueue.popLoop]
      rw [if_neg hcne, if_neg hcond, if_neg hf, hq1, hrec, hc,
        StrQueue.advanceRd_advanceRd]
      have hmap : (List.range f).map (q.advanceRd 1).readAt
          = (List.range f).map (fun j => q.readAt (j + 1)) := by
        apply List.map_congr_left
        intro a ha
        rw [StrQueue.readAt_advanceRd, Nat.add_comm]
      rw [hmap, List.range_succ_eq_map, List.map_cons, List.map_map,
        Nat.add_comm 1 f]
      simp [Function.comp_def, Nat.succ_eq_add_one]

/-- Content-level truncation: popping with a destination strictly smaller
than the front record plus terminator copies `dcap - 1` bytes, forcibly
terminates the destination, and leaves the record's remainder (and
everything after it) in the buffer. -/
theorem StrQueue.pop_trunc_content {q : StrQueue} (s rest : List Nat)
    (dcap : Nat) (h : q.WF) (hcontent : q.content = s ++ [0] ++ rest)
    (hnz : ∀ x ∈ s, x ≠ 0) (h2 : 2 ≤ dcap) (hshort : dcap ≤ s.length) :
    q.pop dcap = (1, s.take (dcap - 1) ++ [0], q.advanceRd (dcap - 1)) ∧
    (q.advanceRd (dcap - 1)).content = s.drop (dcap - 1) ++ [0] ++ rest := by
  have hul : q.used = s.length + 1 + rest.length := by
    rw [← StrQueue.content_length, hcontent]
    simp only [List.length_append, List.length_cons, List.length_nil]
  have hreads : ∀ j, j < s.length → q.readAt j = s.getD j 0 := by
    intro j hj
    rw [← StrQueue.content_getD j (by omega), hcontent, List.append_assoc,
      List.getD_append _ _ _ _ (by omega)]
  have htr := StrQueue.popLoop_trunc (dcap - 1) q h (by omega)
    (by
      intro j hj
      rw [hreads j (by omega)]
      rw [List.getD_eq_getElem s 0 (by omega)]
      exact hnz _ (List.getElem_mem _))
    (by omega)
  have hlist : (List.range (dcap - 1)).map q.readAt = s.take (dcap - 1) := by
    apply List.ext_getElem
    · simp
      omega
    · intro i h1 h2'
      simp only [List.getElem_map, List.getElem_range, List.getElem_take]
      have hi : i < dcap - 1 := by simpa using h1
      rw [hreads i (by omega), List.getD_eq_getElem s 0 (by omega)]
  constructor
  · unfold StrQueue.pop
    rw [if_neg (by omega),
      if_neg (StrQueue.not_isEmpty_of_used_pos h (by omega)),
      if_neg (by omega), htr, hlist]
  · rw [StrQueue.content_advanceRd _ h (by omega), hcontent,
      List.drop_append_of_le_length (by simp; omega),
      List.drop_append_of_le_length (by omega)]

/-- Whatever the state, the copy loop of `pop` always leaves a terminator
as the last byte it wrote. -/
theorem StrQueue.popLoop_ends_zero :
    ∀ (fuel : Nat) (q : StrQueue), 0 < fuel →
    (q.popLoop fuel).1 ≠ [] ∧ (q.popLoop fuel).1.getLast? = some 0 := by
  intro fuel
  induction fuel with
  | zero => omega
  | succ f ih =>
    intro q hpos
    simp only [StrQueue.popLoop]
    by_cases hc : q.buf.getD q.rdptr 0 = 0
    · rw [if_pos hc, hc]
      simp
    · rw [if_neg hc]
      by_cases hcond : wrapIdx q.maxsize (q.rdptr + 1) = q.wrptr
      · rw [if_pos hcond]
        simp
      · rw [if_neg hcond]
        by_cases hf : f = 0
        · rw [if_pos hf]
          simp
        · rw [if_neg hf]
          obtain ⟨hne, hlast⟩ := ih
            { q with rdptr := wrapIdx q.maxsize (q.rdptr + 1) } (by omega)
          match hm : ({ q with rdptr := wrapIdx q.maxsize (q.rdptr + 1) }
              : StrQueue).popLoop f with
          | (out, q2) =>
            rw [hm] at hne hlast
            simp only at hne hlast
            match out, hne with
            | x :: xs, _ =>
              refine ⟨by simp, ?_⟩
              rw [List.getLast?_cons_cons]
              exact hlast

/-! ## Invariant preservation over arbitrary operation sequences -/

theorem StrQueue.maxsize_advanceRd (q : StrQueue) (k : Nat) :
    (q.advanceRd k).maxsize = q.maxsize := rfl

theorem StrQueue.maxsize_push (q : StrQueue) (s : List Nat) :
    (q.push s).2.maxsize = q.maxsize := by
  unfold StrQueue.push
  split
  · rfl
  · exact StrQueue.writeBytes_maxsize q (s ++ [0])

theorem StrQueue.maxsize_pop (q : StrQueue) (maxlen : Nat) :
    (q.pop maxlen).2.2.maxsize = q.maxsize := by
  unfold StrQueue.pop
  split
  · rfl
  · split
    · rfl
    · split
      · rfl
      · exact StrQueue.popLoop_maxsize q (maxlen - 1)

theorem StrQueue.WF_applyQOp {q : StrQueue} (op : QOp) (h : q.WF) :
    (applyQOp q op).WF := by
  cases op with
  | pushOp s => exact StrQueue.WF_push s h
  | popOp maxlen => exact StrQueue.WF_pop maxlen h

theorem StrQueue.maxsize_applyQOp (q : StrQueue) (op : QOp) :
    (applyQOp q op).maxsize = q.maxsize := by
  cases op with
  | pushOp s => exact StrQueue.maxsize_push q s
  | popOp maxlen => exact StrQueue.maxsize_pop q maxlen

theorem StrQueue.runQOps_WF {q : StrQueue} (ops : List QOp) (h : q.WF) :
    (runQOps q ops).WF ∧ (runQOps q ops).maxsize = q.maxsize := by
  induction ops generalizing q with
  | nil => exact ⟨h, rfl⟩
  | cons op rest ih =>
    have hstep := StrQueue.WF_applyQOp op h
    have hm := StrQueue.maxsize_applyQOp q op
    have := ih hstep
    exact ⟨this.1, by rw [show runQOps q (op :: rest)
      = runQOps (applyQOp q op) rest from rfl, this.2, hm]⟩

theorem StrQueue.WF_new (C : Nat) (hC : 0 < C) : (StrQueue.new C).WF := by
  refine ⟨hC, hC, ?_⟩
  simp [StrQueue.new]

/-! ## Claim theorems -/

/-- C1: for every sequence of push and pop operations on a `StrQueue` of
capacity `C`, `used()` is always at most `C - 1`; and every push of a
record whose length including the null terminator exceeds `available()`
returns 0 and leaves the whole state (count, cursors, stored bytes)
unchanged: no partial write, no eviction. -/
theorem C1_ring_capacity_invariant (C : Nat) (hC : 0 < C) (ops : List QOp)
    (s : List Nat) :
    (runQOps (StrQueue.new C) ops).used ≤ C - 1 ∧
    (s.length + 1 > (runQOps (StrQueue.new C) ops).available →
      (runQOps (StrQueue.new C) ops).push s
        = (0, runQOps (StrQueue.new C) ops)) := by
  obtain ⟨hWF, hm⟩ := StrQueue.runQOps_WF ops (StrQueue.WF_new C hC)
  constructor
  · have h1 := StrQueue.used_lt hWF
    have h2 : (StrQueue.new C).maxsize = C := rfl
    rw [hm, h2] at h1
    omega
  · intro hover
    unfold StrQueue.push
    rw [if_pos hover]

/-- C1 witness: a concrete run on a capacity-4 queue, with an oversized
push rejected without any state change. -/
theorem C1_ring_capacity_invariant_witness :
    (runQOps (StrQueue.new 4) [QOp.pushOp [65], QOp.popOp 3]).push
        [1, 2, 3, 4, 5]
      = (0, runQOps (StrQueue.new 4) [QOp.pushOp [65], QOp.popOp 3]) :=
  (C1_ring_capacity_invariant 4 (by decide) [QOp.pushOp [65], QOp.popOp 3]
    [1, 2, 3, 4, 5]).2 (by decide)

/-- C2: pushing a null-free record `s` onto an empty (well-formed) queue
with `s.length + 1 ≤ available()` succeeds, and an immediate pop with
destination capacity greater than `s.length + 1` succeeds, writes exactly
`s` (null-terminated) to the destination, and consumes exactly that
record, leaving the queue empty again. -/
theorem C2_round_trip (q : StrQueue) (s : List Nat) (dcap : Nat)
    (h : q.WF) (hempty : q.isEmpty = true)
    (hnz : ∀ x ∈ s, x ≠ 0)
    (hfit : s.length + 1 ≤ q.available)
    (hdcap : s.length + 1 < dcap) :
    (q.push s).1 = 1 ∧
    ((q.push s).2.pop dcap).1 = 1 ∧
    ((q.push s).2.pop dcap).2.1 = s ++ [0] ∧
    ((q.push s).2.pop dcap).2.2.isEmpty = true := by
  have hwr : q.wrptr = q.rdptr := by
    unfold StrQueue.isEmpty at hempty
    simpa using hempty
  have hused0 : q.used = 0 := (StrQueue.used_eq_zero_iff h).mpr hwr
  have hcontent0 : q.content = [] := by
    unfold StrQueue.content
    rw [hused0]
    rfl
  obtain ⟨hst, hc1, hW1, hu1⟩ := StrQueue.push_content s h hfit
  have hc1' : (q.push s).2.content = s ++ [0] ++ [] := by
    rw [hc1, hcontent0]
    simp
  obtain ⟨hpop, hc2⟩ := StrQueue.pop_content s [] dcap hW1 hc1'
    hnz (by omega)
  refine ⟨hst, ?_, ?_, ?_⟩
  · rw [hpop]
  · rw [hpop]
  · rw [hpop]
    have hW2 := StrQueue.WF_advanceRd (s.length + 1) hW1
    have hu2 : ((q.push s).2.advanceRd (s.length + 1)).used = 0 := by
      rw [← StrQueue.content_length, hc2]
      rfl
    have := (StrQueue.used_eq_zero_iff hW2).mp hu2
    unfold StrQueue.isEmpty
    simpa using this

/-- C2 witness: round trip of the record `[65, 66]` through a fresh
capacity-8 queue. -/
theorem C2_round_trip_witness :
    ((StrQueue.new 8).push [65, 66]).1 = 1 ∧
    ((((StrQueue.new 8).push [65, 66]).2).pop 5).1 = 1 ∧
    ((((StrQueue.new 8).push [65, 66]).2).pop 5).2.1 = [65, 66] ++ [0] ∧
    ((((StrQueue.new 8).push [65, 66]).2).pop 5).2.2.isEmpty = true :=
  C2_round_trip (StrQueue.new 8) [65, 66] 5 (by decide) (by decide)
    (by decide) (by decide) (by decide)

/-- C4 counterexample: the claim states that after a truncated pop the
immediately following pop "does not return the next logically-pushed
record".  Push record A = `[97, 98]` and record B = `[98]` into a fresh
queue; pop with destination capacity 2 (A is longer than
`destinationCapacity - 1 = 1`), truncating A to `[97]`.  The immediately
following pop then returns `[98, 0]` — exactly the next logically-pushed
record B, null-terminated — because A's unread remainder happens to
coincide with B.  (B's own bytes are still in the buffer afterwards:
`used = 2`.)  So the "does not return the next logically-pushed record"
conjunct is false as stated. -/
theorem C4_counterexample :
    (((((StrQueue.new 16).push [97, 98]).2.push [98]).2.pop 2).2.1
        = [97] ++ [0]) ∧
    ((((((StrQueue.new 16).push [97, 98]).2.push [98]).2.pop 2).2.2.pop 16).2.1
        = [98] ++ [0]) ∧
    ((((((StrQueue.new 16).push [97, 98]).2.push [98]).2.pop 2).2.2.pop
        16).2.2.used = 2) := by
  decide

/-- C4 (amended): for a well-formed queue whose front record `s` is longer
than `destinationCapacity - 1` (with `2 ≤ destinationCapacity`), `pop`
copies exactly `destinationCapacity - 1` bytes, forcibly null-terminates
the destination, and leaves the unread remainder of that record in the
buffer; the immediately following pop resumes mid-record: it returns the
remainder of the truncated record (not the record starting at the next
record's first byte), and the following records (`rest`) are still intact
in the buffer afterwards.  (The remainder may coincide byte-for-byte with
the next record, which is why the original "does not return the next
logically-pushed record" phrasing fails.) -/
theorem C4_truncation_amended (q : StrQueue) (s rest : List Nat)
    (dcap dcap2 : Nat) (h : q.WF) (hcontent : q.content = s ++ [0] ++ rest)
    (hnz : ∀ x ∈ s, x ≠ 0)
    (h2 : 2 ≤ dcap) (hshort : dcap ≤ s.length)
    (hdcap2 : s.length - (dcap - 1) + 2 ≤ dcap2) :
    q.pop dcap = (1, s.take (dcap - 1) ++ [0], q.advanceRd (dcap - 1)) ∧
    ((q.advanceRd (dcap - 1)).pop dcap2).2.1 = s.drop (dcap - 1) ++ [0] ∧
    ((q.advanceRd (dcap - 1)).pop dcap2).2.2.content = rest := by
  obtain ⟨hfirst, hrem⟩ := StrQueue.pop_trunc_content s rest dcap h hcontent
    hnz h2 hshort
  have hW1 := StrQueue.WF_advanceRd (dcap - 1) h
  have hnz2 : ∀ x ∈ s.drop (dcap - 1), x ≠ 0 := by
    intro x hx
    exact hnz x (List.mem_of_mem_drop hx)
  obtain ⟨hsecond, hc2⟩ := StrQueue.pop_content (s.drop (dcap - 1)) rest
    dcap2 hW1 hrem hnz2 (by rw [List.length_drop]; omega)
  refine ⟨hfirst, ?_, ?_⟩
  · rw [hsecond]
  · rw [hsecond]
    exact hc2

/-- C4 amended witness: front record `[97, 98, 99]`, popped with
destination capacity 2, then a large pop returning the remainder
`[98, 99]`. -/
theorem C4_truncation_amended_witness :
    ((StrQueue.new 16).push [97, 98, 99]).2.pop 2
        = (1, [97, 98, 99].take 1 ++ [0],
          (((StrQueue.new 16).push [97, 98, 99]).2).advanceRd 1) ∧
    (((((StrQueue.new 16).push [97, 98, 99]).2).advanceRd 1).pop 16).2.1
        = [97, 98, 99].drop 1 ++ [0] ∧
    (((((StrQueue.new 16).push [97, 98, 99]).2).advanceRd 1).pop
        16).2.2.content = [] :=
  C4_truncation_amended (((StrQueue.new 16).push [97, 98, 99]).2)
    [97, 98, 99] [] 2 16 (by decide) (by decide) (by decide) (by decide)
    (by decide) (by decide)

/-- C9: a pop that consumed a complete record of length `L` (terminator
included) increases `available()` by `L + 1`, so a subsequent push of any
record of length at most `L` succeeds; in particular the Forwarder's
push-back of the record it just popped cannot fail with queue-full. -/
theorem C9_pop_frees_space (q : StrQueue) (s rest : List Nat) (dcap : Nat)
    (h : q.WF) (hcontent : q.content = s ++ [0] ++ rest)
    (hnz : ∀ x ∈ s, x ≠ 0) (hlen : s.length + 2 ≤ dcap) :
    q.pop dcap = (1, s ++ [0], q.advanceRd (s.length + 1)) ∧
    (q.advanceRd (s.length + 1)).available
        = q.available + (s.length + 1) ∧
    (∀ s2 : List Nat, s2.length ≤ s.length →
      ((q.advanceRd (s.length + 1)).push s2).1 = 1) := by
  obtain ⟨hpop, hc2⟩ := StrQueue.pop_content s rest dcap h hcontent hnz hlen
  have hul : q.used = s.length + 1 + rest.length := by
    rw [← StrQueue.content_length, hcontent]
    simp only [List.length_append, List.length_cons, List.length_nil]
  have hu2 : (q.advanceRd (s.length + 1)).used = q.used - (s.length + 1) :=
    StrQueue.used_advanceRd (s.length + 1) h (by omega)
  have huslt : q.used < q.maxsize := StrQueue.used_lt h
  have hm2 : (q.advanceRd (s.length + 1)).maxsize = q.maxsize := rfl
  have hav : (q.advanceRd (s.length + 1)).available
      = q.available + (s.length + 1) := by
    unfold StrQueue.available
    rw [hm2, hu2]
    omega
  refine ⟨hpop, hav, ?_⟩
  intro s2 hs2
  unfold StrQueue.push
  rw [if_neg (by rw [hav]; unfold StrQueue.available; omega)]

/-- C9 witness: popping the record `[65, 66]` from a queue that holds only
that record frees enough space that pushing `[67, 68]` succeeds. -/
theorem C9_pop_frees_space_witness :
    ((((StrQueue.new 8).push [65, 66]).2.advanceRd 3).push [67, 68]).1
      = 1 :=
  (C9_pop_frees_space (((StrQueue.new 8).push [65, 66]).2) [65, 66] [] 8
    (by decide) (by decide) (by decide) (by decide)).2.2 [67, 68]
    (by decide)

/-- C10: every `pop` with destination capacity at least 1 leaves the
destination holding a null-terminated string: the bytes written are
non-empty and end with the terminator, and a failed pop on an empty queue
writes exactly the empty string `[0]` while changing nothing. -/
theorem C10_pop_null_terminates (q : StrQueue) (maxlen : Nat) (h : q.WF)
    (hm : 1 ≤ maxlen) :
    (q.pop maxlen).2.1 ≠ [] ∧
    (q.pop maxlen).2.1.getLast? = some 0 ∧
    (q.isEmpty = true → q.pop maxlen = (0, [0], q)) := by
  unfold StrQueue.pop
  rw [if_neg (by omega)]
  by_cases hempty : q.isEmpty = true
  · rw [if_pos hempty]
    exact ⟨by simp, by simp, fun _ => rfl⟩
  · rw [if_neg hempty]
    by_cases h1 : maxlen = 1
    · rw [if_pos h1]
      exact ⟨by simp, by simp, fun he => absurd he hempty⟩
    · rw [if_neg h1]
      obtain ⟨hne, hlast⟩ := StrQueue.popLoop_ends_zero (maxlen - 1) q
        (by omega)
      exact ⟨hne, hlast, fun he => absurd he hempty⟩

/-- C10 witness: a pop on a fresh (empty) queue and a pop on a one-record
queue both leave a null-terminated destination. -/
theorem C10_pop_null_terminates_witness :
    ((StrQueue.new 4).pop 3).2.1 ≠ [] ∧
    ((StrQueue.new 4).pop 3).2.1.getLast? = some 0 ∧
    ((StrQueue.new 4).isEmpty = true →
      (StrQueue.new 4).pop 3 = (0, [0], StrQueue.new 4)) :=
  C10_pop_null_terminates (StrQueue.new 4) 3 (by decide) (by decide)

/-! ## Forwarder step specifications -/

theorem cstr_append_zero {s : List Nat} (hnz : ∀ x ∈ s, x ≠ 0) :
    cstr (s ++ [0]) = s := by
  induction s with
  | nil => rfl
  | cons a as ih =>
    have ha : a ≠ 0 := hnz a (by simp)
    have htail := ih (fun x hx => hnz x (by simp [hx]))
    unfold cstr at htail ⊢
    simp only [List.cons_append, List.takeWhile]
    rw [show (decide (a ≠ 0)) = true from by simpa using ha]
    simp only [List.append_eq] at htail ⊢
    rw [htail]

/-- A forwarding iteration whose delivery succeeds: the front record is
popped and delivered, nothing is pushed back. -/
theorem forwardStep_true_spec {q : StrQueue} (s rest : List Nat)
    (h : q.WF) (hcontent : q.content = s ++ [0] ++ rest)
    (hnz : ∀ x ∈ s, x ≠ 0) (hne : s ≠ []) (hlen : s.length ≤ 382) :
    forwardStep true q = (q.advanceRd (s.length + 1), some s) ∧
    (q.advanceRd (s.length + 1)).content = rest ∧
    (q.advanceRd (s.length + 1)).WF ∧
    (q.advanceRd (s.length + 1)).used = rest.length := by
  have hul : q.used = s.length + 1 + rest.length := by
    rw [← StrQueue.content_length, hcontent]
    simp only [List.length_append, List.length_cons, List.length_nil]
  obtain ⟨hpop, hc2⟩ := StrQueue.pop_content s rest 384 h hcontent hnz
    (by omega)
  have hW2 := StrQueue.WF_advanceRd (s.length + 1) h
  have hu2 : (q.advanceRd (s.length + 1)).used = rest.length := by
    rw [StrQueue.used_advanceRd (s.length + 1) h (by omega), hul]
    omega
  refine ⟨?_, hc2, hW2, hu2⟩
  unfold forwardStep
  rw [if_neg (StrQueue.not_isEmpty_of_used_pos h (by omega)), hpop]
  simp [cstr_append_zero hnz, hne]

/-- A forwarding iteration whose delivery fails: the front record is
popped and then pushed back at the write cursor (requeued at the back). -/
theorem forwardStep_false_spec {q : StrQueue} (s rest : List Nat)
    (h : q.WF) (hcontent : q.content = s ++ [0] ++ rest)
    (hnz : ∀ x ∈ s, x ≠ 0) (hne : s ≠ []) (hlen : s.length ≤ 382)
    (hfit : s.length + 1 ≤ (q.advanceRd (s.length + 1)).available) :
    forwardStep false q
        = (((q.advanceRd (s.length + 1)).push s).2, none) ∧
    ((q.advanceRd (s.length + 1)).push s).2.content = rest ++ (s ++ [0]) ∧
    ((q.advanceRd (s.length + 1)).push s).2.WF ∧
    ((q.advanceRd (s.length + 1)).push s).2.used
        = rest.length + (s.length + 1) := by
  have hul : q.used = s.length + 1 + rest.length := by
    rw [← StrQueue.content_length, hcontent]
    simp only [List.length_append, List.length_cons, List.length_nil]
  obtain ⟨hpop, hc2⟩ := StrQueue.pop_content s rest 384 h hcontent hnz
    (by omega)
  have hW2 := StrQueue.WF_advanceRd (s.length + 1) h
  have hu2 : (q.advanceRd (s.length + 1)).used = rest.length := by
    rw [StrQueue.used_advanceRd (s.length + 1) h (by omega), hul]
    omega
  obtain ⟨hst3, hc3, hW3, hu3⟩ := StrQueue.push_content s hW2 hfit
  refine ⟨?_, by rw [hc3, hc2], hW3, by rw [hu3, hu2]⟩
  unfold forwardStep
  rw [if_neg (StrQueue.not_isEmpty_of_used_pos h (by omega)), hpop]
  simp [cstr_append_zero hnz, hne]

/-- C6: with three records A, B, C queued in that order, where B's first
delivery attempt fails and every other attempt succeeds, the Forwarder
delivers them in the order A, C, B: the failed record is pushed to the
back of the queue and retried after C, not lost and not blocking C; the
queue ends up empty. -/
theorem C6_round_robin (cap : Nat) (A B Cr : List Nat)
    (hnzA : ∀ x ∈ A, x ≠ 0) (hnzB : ∀ x ∈ B, x ≠ 0)
    (hnzC : ∀ x ∈ Cr, x ≠ 0)
    (hneA : A ≠ []) (hneB : B ≠ []) (hneC : Cr ≠ [])
    (hlenA : A.length ≤ 382) (hlenB : B.length ≤ 382)
    (hlenC : Cr.length ≤ 382)
    (hfit : A.length + B.length + Cr.length + 3 ≤ cap - 1) :
    (forwardRun ((((StrQueue.new cap).push A).2.push B).2.push Cr).2
        [true, false, true, true]).2 = [A, Cr, B] ∧
    (forwardRun ((((StrQueue.new cap).push A).2.push B).2.push Cr).2
        [true, false, true, true]).1.used = 0 := by
  have hA1 : 1 ≤ A.length := List.length_pos.mpr hneA
  have hB1 : 1 ≤ B.length := List.length_pos.mpr hneB
  have hC1 : 1 ≤ Cr.length := List.length_pos.mpr hneC
  have hcap : 7 ≤ cap := by omega
  have hW0 : (StrQueue.new cap).WF := StrQueue.WF_new cap (by omega)
  have hu0 : (StrQueue.new cap).used = 0 := rfl
  have hc0 : (StrQueue.new cap).content = [] := rfl
  have hm0 : (StrQueue.new cap).maxsize = cap := rfl
  have hav0 : (StrQueue.new cap).available = cap - 1 := rfl
  -- push A
  obtain ⟨hsA, hcA, hWA, huA⟩ := StrQueue.push_content A hW0
    (by rw [hav0]; omega)
  set q1 : StrQueue := ((StrQueue.new cap).push A).2 with hq1def
  have hmA : q1.maxsize = cap := by
    rw [hq1def, StrQueue.maxsize_push, hm0]
  have havA : q1.available = cap - (A.length + 1) - 1 := by
    unfold StrQueue.available
    rw [hmA, huA, hu0]
    omega
  -- push B
  obtain ⟨hsB, hcB, hWB, huB⟩ := StrQueue.push_content B hWA
    (by rw [havA]; omega)
  set q2 : StrQueue := (q1.push B).2 with hq2def
  have hmB : q2.maxsize = cap := by
    rw [hq2def, StrQueue.maxsize_push, hmA]
  have havB : q2.available = cap - (A.length + 1) - (B.length + 1) - 1 := by
    unfold StrQueue.available
    rw [hmB, huB, huA, hu0]
    omega
  -- push C
  obtain ⟨hsC, hcC, hWC, huC⟩ := StrQueue.push_content Cr hWB
    (by rw [havB]; omega)
  set q3 : StrQueue := (q2.push Cr).2 with hq3def
  have hmC : q3.maxsize = cap := by
    rw [hq3def, StrQueue.maxsize_push, hmB]
  have hc3 : q3.content = A ++ [0] ++ ((B ++ [0]) ++ (Cr ++ [0])) := by
    rw [hq3def, hcC, hcB, hcA, hc0]
    simp [List.append_assoc]
  -- step 1: deliver A
  obtain ⟨hf1, hc4, hW4, hu4⟩ := forwardStep_true_spec A
    ((B ++ [0]) ++ (Cr ++ [0])) hWC hc3 hnzA hneA hlenA
  set q4 : StrQueue := q3.advanceRd (A.length + 1) with hq4def
  have hm4 : q4.maxsize = cap := by
    rw [hq4def, StrQueue.maxsize_advanceRd]
    exact hmC
  have hc4' : q4.content = B ++ [0] ++ (Cr ++ [0]) := by
    rw [hc4]
  -- step 2: pop B, delivery fails, push it back
  have hfitB : B.length + 1 ≤ (q4.advanceRd (B.length + 1)).available := by
    have hu5 : (q4.advanceRd (B.length + 1)).used = Cr.length + 1 := by
      rw [StrQueue.used_advanceRd (B.length + 1) hW4 (by rw [hu4]; simp)]
      rw [hu4]
      simp only [List.length_append, List.length_cons, List.length_nil]
      omega
    have hm5 : (q4.advanceRd (B.length + 1)).maxsize = cap := by
      rw [StrQueue.maxsize_advanceRd, hm4]
    unfold StrQueue.available
    rw [hu5, hm5]
    omega
  obtain ⟨hf2, hc5, hW5, hu5⟩ := forwardStep_false_spec B (Cr ++ [0]) hW4
    hc4' hnzB hneB hlenB hfitB
  set q5 : StrQueue := ((q4.advanceRd (B.length + 1)).push B).2 with hq5def
  have hc5' : q5.content = Cr ++ [0] ++ (B ++ [0]) := by
    rw [hq5def, hc5]
  -- step 3: deliver C
  obtain ⟨hf3, hc6, hW6, hu6⟩ := forwardStep_true_spec Cr (B ++ [0]) hW5
    hc5' hnzC hneC hlenC
  set q6 : StrQueue := q5.advanceRd (Cr.length + 1) with hq6def
  have hc6' : q6.content = B ++ [0] ++ [] := by
    rw [hq6def, hc6]
    simp
  -- step 4: deliver B
  obtain ⟨hf4, hc7, hW7, hu7⟩ := forwardStep_true_spec B [] hW6 hc6'
    hnzB hneB hlenB
  simp only [forwardRun, hf1, hf2, hf3, hf4, Option.toList]
  refine ⟨by simp, by simpa using hu7⟩

/-- C6 witness: records `[65]`, `[66]`, `[67]` on a capacity-64 queue with
outcome sequence success, failure, success, success. -/
theorem C6_round_robin_witness :
    (forwardRun ((((StrQueue.new 64).push [65]).2.push [66]).2.push
        [67]).2 [true, false, true, true]).2 = [[65], [67], [66]] ∧
    (forwardRun ((((StrQueue.new 64).push [65]).2.push [66]).2.push
        [67]).2 [true, false, true, true]).1.used = 0 :=
  C6_round_robin 64 [65] [66] [67] (by decide) (by decide) (by decide)
    (by decide) (by decide) (by decide) (by decide) (by decide) (by decide)
    (by decide)

/-! ## Schedule-entry parsing and scheduler claims -/

theorem clampInterval_bounds (m : Int) :
    (m < 1 → clampInterval m = 1) ∧ (1440 < m → clampInterval m = 1440) ∧
    1 ≤ clampInterval m ∧ clampInterval m ≤ 1440 := by
  unfold clampInterval
  by_cases h1 : m < 1
  · rw [if_pos h1]
    exact ⟨fun _ => rfl, fun h => by omega, by omega, by omega⟩
  · rw [if_neg h1]
    by_cases h2 : m > 1440
    · rw [if_pos h2]
      exact ⟨fun h => by omega, fun _ => rfl, by omega, by omega⟩
    · rw [if_neg h2]
      exact ⟨fun h => by omega, fun h => by omega, by omega, by omega⟩

theorem ValueToRead.setStage4_errors (v : ValueToRead) (s3 : List Char) :
    (v.setStage4 s3).2.errors = v.errors := by
  unfold ValueToRead.setStage4
  cases findComma s3 with
  | none => rfl
  | some d3 => rfl

theorem ValueToRead.setStage3_errors (v : ValueToRead) (s2 : List Char) :
    (v.setStage3 s2).2.errors = v.errors := by
  unfold ValueToRead.setStage3
  cases findComma s2 with
  | none => rfl
  | some d2 => rw [ValueToRead.setStage4_errors]

theorem ValueToRead.setStage2_errors (v : ValueToRead) (s1 : List Char) :
    (v.setStage2 s1).2.errors = v.errors := by
  unfold ValueToRead.setStage2
  cases findComma s1 with
  | none => rfl
  | some d1 => rw [ValueToRead.setStage3_errors]

theorem ValueToRead.set_errors (v : ValueToRead) (s : List Char) :
    (v.set s).2.errors = v.errors := by
  unfold ValueToRead.set
  cases findComma s with
  | none => rfl
  | some c0 => rw [ValueToRead.setStage2_errors]

theorem ValueToRead.setStage4_ok_iff (v : ValueToRead) (s3 : List Char) :
    ((v.setStage4 s3).1 = "OK" ↔ commasOk4 s3 = true) := by
  unfold ValueToRead.setStage4 commasOk4
  cases findComma s3 with
  | none => simp
  | some d3 => simp

theorem ValueToRead.setStage3_ok_iff (v : ValueToRead) (s2 : List Char) :
    ((v.setStage3 s2).1 = "OK" ↔ commasOk3 s2 = true) := by
  unfold ValueToRead.setStage3 commasOk3
  cases findComma s2 with
  | none => simp
  | some d2 => exact ValueToRead.setStage4_ok_iff _ _

theorem ValueToRead.setStage2_ok_iff (v : ValueToRead) (s1 : List Char) :
    ((v.setStage2 s1).1 = "OK" ↔ commasOk2 s1 = true) := by
  unfold ValueToRead.setStage2 commasOk2
  cases findComma s1 with
  | none => simp
  | some d1 => exact ValueToRead.setStage3_ok_iff _ _

theorem ValueToRead.set_ok_iff (v : ValueToRead) (s : List Char) :
    ((v.set s).1 = "OK" ↔ commasOk s = true) := by
  unfold ValueToRead.set commasOk
  cases findComma s with
  | none => simp
  | some c0 => exact ValueToRead.setStage2_ok_iff _ _

theorem ValueToRead.setStage4_minutes (v : ValueToRead) (s3 : List Char) :
    (v.setStage4 s3).2.minutesBetweenReads = v.minutesBetweenReads := by
  unfold ValueToRead.setStage4
  cases findComma s3 with
  | none => rfl
  | some d3 => rfl

theorem ValueToRead.setStage3_minutes (v : ValueToRead) (s2 : List Char) :
    (v.setStage3 s2).2.minutesBetweenReads = v.minutesBetweenReads := by
  unfold ValueToRead.setStage3
  cases findComma s2 with
  | none => rfl
  | some d2 => rw [ValueToRead.setStage4_minutes]

theorem ValueToRead.setStage2_interval (v : ValueToRead) (s1 : List Char)
    (h : (v.setStage2 s1).1 = "OK") :
    1 ≤ (v.setStage2 s1).2.minutesBetweenReads ∧
    (v.setStage2 s1).2.minutesBetweenReads ≤ 1440 := by
  unfold ValueToRead.setStage2 at h ⊢
  cases hf : findComma s1 with
  | none =>
    rw [hf] at h
    have hno : ¬ (("format error, 2nd comma not found" : String) = "OK") := by
      decide
    exact absurd h hno
  | some d1 =>
    have hm := ValueToRead.setStage3_minutes
      { v with minutesBetweenReads := clampInterval (atoi (s1.take d1)) }
      (s1.drop (d1 + 1))
    constructor
    · show 1 ≤ (ValueToRead.setStage3
        { v with minutesBetweenReads := clampInterval (atoi (s1.take d1)) }
        (s1.drop (d1 + 1))).2.minutesBetweenReads
      rw [hm]
      exact (clampInterval_bounds _).2.2.1
    · show (ValueToRead.setStage3
        { v with minutesBetweenReads := clampInterval (atoi (s1.take d1)) }
        (s1.drop (d1 + 1))).2.minutesBetweenReads ≤ 1440
      rw [hm]
      exact (clampInterval_bounds _).2.2.2

theorem ValueToRead.set_ok_interval (v : ValueToRead) (s : List Char)
    (h : (v.set s).1 = "OK") :
    1 ≤ (v.set s).2.minutesBetweenReads ∧
    (v.set s).2.minutesBetweenReads ≤ 1440 := by
  unfold ValueToRead.set at h ⊢
  cases hf : findComma s with
  | none =>
    rw [hf] at h
    have hno : ¬ (("format error, 1st comma not found" : String) = "OK") := by
      decide
    exact absurd h hno
  | some c0 =>
    rw [hf] at h
    exact ValueToRead.setStage2_interval _ _ h

/-- C7: every line accepted by `ValueToRead::set` (acceptance depends only
on the comma structure, never on the interval digits, so no failure is
ever raised for an out-of-range interval) yields an interval in
`[1, 1440]`; the clamp maps every parsed value below 1 (non-numeric input
parses to 0) to 1 and every value above 1440 to 1440. -/
theorem C7_interval_clamp (s : List Char) (v : ValueToRead) :
    ((v.set s).1 = "OK" ↔ commasOk s = true) ∧
    ((v.set s).1 = "OK" →
      1 ≤ (v.set s).2.minutesBetweenReads ∧
      (v.set s).2.minutesBetweenReads ≤ 1440) ∧
    (∀ m : Int, (m < 1 → clampInterval m = 1) ∧
      (1440 < m → clampInterval m = 1440) ∧
      1 ≤ clampInterval m ∧ clampInterval m ≤ 1440) :=
  ⟨ValueToRead.set_ok_iff v s, ValueToRead.set_ok_interval v s,
    clampInterval_bounds⟩

/-- C7 witness: parsing the line `tag,0,dev,svc,chr` succeeds and the
out-of-range interval 0 is clamped into `[1, 1440]`. -/
theorem C7_interval_clamp_witness :
    1 ≤ (ValueToRead.init.set ("tag,0,dev,svc,chr".toList)).2.minutesBetweenReads ∧
    (ValueToRead.init.set ("tag,0,dev,svc,chr".toList)).2.minutesBetweenReads
      ≤ 1440 :=
  (C7_interval_clamp ("tag,0,dev,svc,chr".toList) ValueToRead.init).2.1
    (by decide)

/-- C5: on a minute tick an entry is due iff the minute counter modulo its
interval is 0 and its resolved address is non-empty; the first tick after
setup (`minuteCounter = -1` in a 32-bit unsigned word, then incremented)
evaluates the counter at 0, and at counter 0 every resolved entry is due,
whatever its interval. -/
theorem C5_due_condition (c : Nat) (v : ValueToRead) :
    (isDue c v = true ↔
      (c % v.minutesBetweenReads.toNat = 0 ∧ v.deviceAddr ≠ [])) ∧
    tickCounter initialMinuteCounter = 0 ∧
    (v.deviceAddr ≠ [] → isDue 0 v = true) := by
  have hiff : ∀ (x : Nat), isDue x v = true ↔
      (x % v.minutesBetweenReads.toNat = 0 ∧ v.deviceAddr ≠ []) := by
    intro x
    unfold isDue
    rw [Bool.and_eq_true, beq_iff_eq, Bool.not_eq_true',
      List.isEmpty_eq_false]
  refine ⟨hiff c, by decide, fun ha => (hiff 0).mpr ⟨Nat.zero_mod _, ha⟩⟩

/-- C5 witness: at counter 0 a resolved entry with the maximal interval
1440 is due. -/
theorem C5_due_condition_witness :
    isDue 0 { ValueToRead.init with
      deviceAddr := ['a']
      minutesBetweenReads := 1440 } = true :=
  (C5_due_condition 0 { ValueToRead.init with
    deviceAddr := ['a']
    minutesBetweenReads := 1440 }).2.2 (by decide)

set_option maxRecDepth 4000 in
/-- C3 counterexample: a due, resolved entry whose connect attempt fails.
The claim says no record is enqueued for that cycle, but the cycle always
pushes the record assembled by the overlapping `sprintf`: with the
19-byte timestamp `2024/01/01,00:00:00` and tag `t`, the
`timestamp,tag,` prefix is 22 bytes and the pushed record is that prefix
duplicated (44 bytes); the push returns 1 and the queue's `used` goes
from 0 to 45 (44 bytes plus terminator). -/
theorem C3_counterexample :
    isDue 0 { ValueToRead.init with
      valueTag := ['t']
      deviceAddr := ['a'] } = true ∧
    (dueCycle false [] (bytes ("2024/01/01,00:00:00".toList))
      { ValueToRead.init with valueTag := ['t'], deviceAddr := ['a'] }
      (StrQueue.new 64)).2.1 = 1 ∧
    (dueCycle false [] (bytes ("2024/01/01,00:00:00".toList))
      { ValueToRead.init with valueTag := ['t'], deviceAddr := ['a'] }
      (StrQueue.new 64)).2.2.used = 45 := by
  decide

/-- C3 (amended): on a connect failure the entry's connect-failed error
bit is set and its connect counter is unchanged, but the cycle still
pushes a record onto the RingBuffer — enqueued whenever the queue has
room, rather than no record being enqueued.  Because the formatting
`sprintf` passes the value buffer as both destination and source, the
`*UNKNOWN*` placeholder is overwritten before it is read: the pushed
record is the `timestamp,tag,` prefix followed by a copy of itself plus
any tail of the placeholder extending past the prefix (`failRecord`). -/
theorem C3_connect_fail_amended (v : ValueToRead) (q : StrQueue)
    (readVal ts : List Nat) :
    (dueCycle false readVal ts v q).1.errors
        = v.errors ||| BLESVR_ERR_CONNECTFAIL ∧
    (dueCycle false readVal ts v q).1.connects = v.connects ∧
    (dueCycle false readVal ts v q).2 = q.push (failRecord ts v.valueTag) ∧
    (q.WF →
      (failRecord ts v.valueTag).length + 1 ≤ q.available →
      (dueCycle false readVal ts v q).2.1 = 1 ∧
      (dueCycle false readVal ts v q).2.2.used
        = q.used + ((failRecord ts v.valueTag).length + 1)) := by
  have h1 : dueCycle false readVal ts v q
      = ({ v with errors := v.errors ||| BLESVR_ERR_CONNECTFAIL },
        q.push (failRecord ts v.valueTag)) := rfl
  rw [h1]
  refine ⟨rfl, rfl, rfl, ?_⟩
  intro hWF hfit
  obtain ⟨hst, _, _, hu⟩ := StrQueue.push_content _ hWF hfit
  exact ⟨hst, hu⟩

/-- C3 amended witness: concrete failing cycle on a capacity-16 queue
with timestamp byte `[53]` and tag `t`: the prefix is 4 bytes, the
pushed record is 13 bytes (prefix, prefix again, and the placeholder's
5-byte tail), and `used` becomes 14. -/
theorem C3_connect_fail_amended_witness :
    (dueCycle false [] [53] { ValueToRead.init with valueTag := ['t'] }
      (StrQueue.new 16)).2.1 = 1 ∧
    (dueCycle false [] [53] { ValueToRead.init with valueTag := ['t'] }
      (StrQueue.new 16)).2.2.used
      = (StrQueue.new 16).used + ((failRecord [53] ['t']).length + 1) :=
  (C3_connect_fail_amended { ValueToRead.init with valueTag := ['t'] }
    (StrQueue.new 16) [] [53]).2.2.2 (by decide) (by decide)

/-! ## The device-not-found bit -/

theorem applyEntryOp_testBit (v : ValueToRead) (op : EntryOp)
    (h : v.errors.testBit 0 = false) :
    (applyEntryOp v op).errors.testBit 0 = false := by
  cases op with
  | parseLine line =>
    rw [show applyEntryOp v (EntryOp.parseLine line) = (v.set line).2
      from rfl, ValueToRead.set_errors]
    exact h
  | resolve addr => exact h
  | readSuccess readVal => exact h
  | readConnectFail =>
    show (v.errors ||| BLESVR_ERR_CONNECTFAIL).testBit 0 = false
    rw [Nat.testBit_lor, h]
    decide

/-- C8: in every state reachable by any sequence of the program's
entry-mutating operations (constructed by `ValueToRead()`, then any mix of
config parsing, discovery resolution, and successful or connect-failing
reads), the device-not-found error bit (bit value
`BLESVR_ERR_DEVNOTFOUND = 1`, i.e. bit 0) of the entry's error bitmask is
0: the constructor initializes `errors` to 0 and no operation ever sets
that bit. -/
theorem C8_devnotfound_never_set (ops : List EntryOp) :
    (runEntryOps ops).errors.testBit 0 = false ∧
    (runEntryOps ops).errors &&& BLESVR_ERR_DEVNOTFOUND = 0 := by
  have hbit : ∀ (l : List EntryOp) (v : ValueToRead),
      v.errors.testBit 0 = false →
      (l.foldl applyEntryOp v).errors.testBit 0 = false := by
    intro l
    induction l with
    | nil => exact fun v h => h
    | cons op rest ih => exact fun v h => ih _ (applyEntryOp_testBit v op h)
  have hmain : (runEntryOps ops).errors.testBit 0 = false :=
    hbit ops ValueToRead.init (by decide)
  refine ⟨hmain, ?_⟩
  rw [Nat.testBit_zero] at hmain
  have h2 : (runEntryOps ops).errors % 2 = 0 := by
    have := of_decide_eq_false hmain
    omega
  rw [show BLESVR_ERR_DEVNOTFOUND = 1 from rfl, Nat.and_one_is_mod, h2]

end BleWifi
